import Mathlib

/-!
# Verification of the msgpackc fixed-width codec layer

A shallow embedding of `src/c/msgpackc.c`, the C foreign library behind the
`msgpackc` Prolog pack.  The C file defines, for a little-endian host:

* `get_list_bytes` / `unify_list_bytes`: moving bytes between a Prolog list of
  integer cells and a C byte buffer;
* `be16` / `be32` / `be64`: byte-order swaps (big-endian conversion);
* `reinterpret_to_float32` / `reinterpret_from_float32` and the 64-bit
  analogues: bit-pattern aliasing between unsigned integers and IEEE floats;
* eight three-argument foreign predicates `float32_3`, `float64_3`,
  `uint16_3`, `uint32_3`, `uint64_3`, `int16_3`, `int32_3`, `int64_3`, each
  dispatching on whether its `Number` argument is an unbound variable
  (decode bytes into `Number`) or bound (encode `Number` into bytes).

Machine integers are embedded as `Nat`/`Int` with explicit `% 2 ^ w`
truncation wherever the C code performs an integer conversion.  A C `float`
(resp. `double`) is embedded as its 32-bit (resp. 64-bit) object
representation, so equality of embedded floats is bit-exact equality and NaN
payloads are preserved.  The two value-level floating-point conversions the
encode branches rely on — the implicit `double`-to-`float` narrowing inside
`float32_3`, and the integer-to-`double` conversion `PL_get_float` applies
to an integer `Number` — are kept as explicit function parameters, since
their rounding behaviour belongs to the host's IEEE implementation, not to
this file.
-/

/-- A cell of a Prolog byte list, as seen through the foreign interface:
either an integer term (of arbitrary precision — SWI-Prolog integers are
bignums) or some non-integer term. -/
inductive Cell where
  | int (i : Int)
  | other
deriving DecidableEq

/-- The `Number` argument of one of the three-argument codec predicates:
an unbound variable, an integer term, or a float term.  A Prolog float is a
C `double`; it is embedded as its 64-bit IEEE-754 object representation. -/
inductive PlNumber where
  | var
  | int (i : Int)
  | float (bits : Nat)
deriving DecidableEq

/-- A C `float` value, embedded as its 32-bit object representation
(IEEE-754 single precision).  Equality is equality of bit patterns, so NaN
patterns are distinguished bit-exactly. -/
structure F32 where
  bits : Nat
deriving DecidableEq

/-- A C `double` value, embedded as its 64-bit object representation
(IEEE-754 double precision). -/
structure F64 where
  bits : Nat
deriving DecidableEq

/-- One of the two possible outcomes of a successful call to a codec
predicate: the decode branch binds `Number` to a value and unifies the third
argument with the unconsumed rest of the byte list; the encode branch
unifies the byte-list arguments with the emitted bytes (as a difference
list: `Bytes0 = out ++ Bytes`). -/
inductive Result (α : Type) where
  | decoded (value : α) (rest : List Cell)
  | encoded (out : List Nat)
deriving DecidableEq

/-- The value of a little-endian byte buffer (`bytes[0]` is the least
significant byte): reading the `value` member of one of the C unions `xx`,
`xxxx`, `xxxxxxxx` on the little-endian host after filling `bytes`. -/
def leVal : List Nat → Nat
  | [] => 0
  | b :: bs => b + 256 * leVal bs

/-- The first `n` little-endian bytes of `x`: reading the `bytes` member of
one of the C unions on the little-endian host after storing `x` in
`value`. -/
def leBytes : Nat → Nat → List Nat
  | 0, _ => []
  | n + 1, x => x % 256 :: leBytes n (x / 256)

/-- `PL_get_uint64` applied to a cell: succeeds exactly on integer terms in
`[0, 2^64-1]` (negative integers and bignums beyond 64 bits fail). -/
def cellUint64 : Cell → Option Nat
  | .int i => if 0 ≤ i ∧ i < 2 ^ 64 then some i.toNat else none
  | .other => none

/-- One iteration of the `get_list_bytes` loop body on a cell:
`PL_get_uint64(Byte, &value)` followed by the `value > UINT8_MAX` guard. -/
def cellByte (c : Cell) : Option Nat :=
  match cellUint64 c with
  | none => none
  | some value => if value > 255 then none else some value

/-- `get_list_bytes(Bytes0, Bytes, count, bytes)`: walks `count` cells off
the front of the list, failing if the list runs out first
(`PL_get_list` fails on `[]`) or if a cell is not an integer in `[0,255]`;
on success returns the bytes read and unifies `Bytes` with the unconsumed
tail (returned here as the second component).  The C function also writes
the successfully-seen bytes into the buffer before failing, but at the
Prolog level a failed call produces no observable value. -/
def get_list_bytes : Nat → List Cell → Option (List Nat × List Cell)
  | 0, cells => some ([], cells)
  | _ + 1, [] => none
  | count + 1, c :: cells =>
    match cellByte c with
    | none => none
    | some b =>
      match get_list_bytes count cells with
      | none => none
      | some (bs, rest) => some (b :: bs, rest)

/-- The byte-list cells produced by `unify_list_bytes`: each emitted byte is
unified with a fresh cell via `PL_unify_integer`, giving a proper list of
small non-negative integer terms. -/
def bytesToCells (bs : List Nat) : List Cell :=
  bs.map fun b => Cell.int b

/-- `be16` on the little-endian host: `xx << 8 | xx >> 8` where `xx` is a
`uint16_t` (the shift is performed after integer promotion; the result is
converted back to `uint16_t`, hence the `% 2 ^ 16`). -/
def be16 (xx : Nat) : Nat :=
  ((xx <<< 8) ||| (xx >>> 8)) % 2 ^ 16

/-- `be32` on the little-endian host:
`(uint32_t)be16(xxxx) << 16 | be16(xxxx >> 16)`; passing a `uint32_t` to
`be16`'s `uint16_t` parameter truncates it (`% 2 ^ 16`). -/
def be32 (xxxx : Nat) : Nat :=
  ((be16 (xxxx % 2 ^ 16) <<< 16) ||| be16 ((xxxx >>> 16) % 2 ^ 16)) % 2 ^ 32

/-- `be64` on the little-endian host:
`(uint64_t)be32(xxxxxxxx) << 32 | be32(xxxxxxxx >> 32)`. -/
def be64 (xxxxxxxx : Nat) : Nat :=
  ((be32 (xxxxxxxx % 2 ^ 32) <<< 32) ||| be32 ((xxxxxxxx >>> 32) % 2 ^ 32)) % 2 ^ 64

/-- `reinterpret_to_float32`: `*(float *)&xxxx` — the `float` whose object
representation is the four in-memory bytes of the `uint32_t` argument. -/
def reinterpret_to_float32 (xxxx : Nat) : F32 :=
  ⟨leVal (leBytes 4 xxxx)⟩

/-- `reinterpret_from_float32`: `*(uint32_t *)&xxxx` — the `uint32_t` whose
object representation is the four in-memory bytes of the `float`. -/
def reinterpret_from_float32 (f : F32) : Nat :=
  leVal (leBytes 4 f.bits)

/-- `reinterpret_to_float64`: `*(double *)&xxxxxxxx`. -/
def reinterpret_to_float64 (xxxxxxxx : Nat) : F64 :=
  ⟨leVal (leBytes 8 xxxxxxxx)⟩

/-- `reinterpret_from_float64`: `*(uint64_t *)&xxxxxxxx`. -/
def reinterpret_from_float64 (f : F64) : Nat :=
  leVal (leBytes 8 f.bits)

/-- `PL_get_uint64` applied to the `Number` argument. -/
def getUint64 : PlNumber → Option Nat
  | .int i => if 0 ≤ i ∧ i < 2 ^ 64 then some i.toNat else none
  | _ => none

/-- `PL_get_int64` applied to the `Number` argument: succeeds exactly on
integer terms representable in a signed 64-bit integer. -/
def getInt64 : PlNumber → Option Int
  | .int i => if -2 ^ 63 ≤ i ∧ i < 2 ^ 63 then some i else none
  | _ => none

/-- `PL_get_float` applied to the `Number` argument: succeeds on a float
term, yielding the double's bit pattern, and also on an integer term,
which the host converts to `double` — `intToFloat64` is that host
conversion (to the converted double's bit pattern), a parameter of the
embedding; only an unbound variable fails (and the dispatch never sends
one here). -/
def getFloat (intToFloat64 : Int → Nat) : PlNumber → Option Nat
  | .float bits => some bits
  | .int i => some (intToFloat64 i)
  | .var => none

/-- The C conversion from `uint64_t` to `int64_t` (two's complement), as
performed when `PL_unify_int64` receives `be64(raw.value)`. -/
def toInt64 (u : Nat) : Int :=
  if u < 2 ^ 63 then (u : Int) else (u : Int) - 2 ^ 64

/-- Decode branch of `uint16_3`: read two bytes into the union, byte-swap,
and unify `Number` (via `PL_unify_uint64`) with the result. -/
def uint16_dec (cells : List Cell) : Option (Int × List Cell) :=
  match get_list_bytes 2 cells with
  | none => none
  | some (bs, rest) => some ((be16 (leVal bs) : Nat), rest)

/-- Encode branch of `uint16_3`: `PL_get_uint64` then the
`value > UINT16_MAX` guard; `raw.value = be16(value)` truncates `value` to
`uint16_t` at the call, and the union's bytes are emitted in order. -/
def uint16_enc (number : PlNumber) : Option (List Nat) :=
  match getUint64 number with
  | none => none
  | some value =>
    if value > 2 ^ 16 - 1 then none
    else some (leBytes 2 (be16 (value % 2 ^ 16)))

/-- `uint16_3(Number, Bytes0, Bytes)`: decodes when `Number` is an unbound
variable (`PL_is_variable`), encodes otherwise. -/
def uint16_3 (number : PlNumber) (cells : List Cell) : Option (Result Int) :=
  match number with
  | .var =>
    match uint16_dec cells with
    | none => none
    | some (v, rest) => some (.decoded v rest)
  | _ =>
    match uint16_enc number with
    | none => none
    | some out => some (.encoded out)

/-- Decode branch of `uint32_3`. -/
def uint32_dec (cells : List Cell) : Option (Int × List Cell) :=
  match get_list_bytes 4 cells with
  | none => none
  | some (bs, rest) => some ((be32 (leVal bs) : Nat), rest)

/-- Encode branch of `uint32_3`: `PL_get_uint64` then the
`value > UINT32_MAX` guard. -/
def uint32_enc (number : PlNumber) : Option (List Nat) :=
  match getUint64 number with
  | none => none
  | some value =>
    if value > 2 ^ 32 - 1 then none
    else some (leBytes 4 (be32 (value % 2 ^ 32)))

/-- `uint32_3(Number, Bytes0, Bytes)`. -/
def uint32_3 (number : PlNumber) (cells : List Cell) : Option (Result Int) :=
  match number with
  | .var =>
    match uint32_dec cells with
    | none => none
    | some (v, rest) => some (.decoded v rest)
  | _ =>
    match uint32_enc number with
    | none => none
    | some out => some (.encoded out)

/-- Decode branch of `uint64_3`. -/
def uint64_dec (cells : List Cell) : Option (Int × List Cell) :=
  match get_list_bytes 8 cells with
  | none => none
  | some (bs, rest) => some ((be64 (leVal bs) : Nat), rest)

/-- Encode branch of `uint64_3`: `PL_get_uint64` only — any unsigned 64-bit
value is accepted. -/
def uint64_enc (number : PlNumber) : Option (List Nat) :=
  match getUint64 number with
  | none => none
  | some value => some (leBytes 8 (be64 value))

/-- `uint64_3(Number, Bytes0, Bytes)`. -/
def uint64_3 (number : PlNumber) (cells : List Cell) : Option (Result Int) :=
  match number with
  | .var =>
    match uint64_dec cells with
    | none => none
    | some (v, rest) => some (.decoded v rest)
  | _ =>
    match uint64_enc number with
    | none => none
    | some out => some (.encoded out)

/-- Decode branch of `int16_3`: `PL_unify_int64(Number, be16(raw.value))` —
`be16` returns `uint16_t`, which widens to `int64_t` without sign
extension, so the decoded value is the unsigned 16-bit interpretation. -/
def int16_dec (cells : List Cell) : Option (Int × List Cell) :=
  match get_list_bytes 2 cells with
  | none => none
  | some (bs, rest) => some ((be16 (leVal bs) : Nat), rest)

/-- Encode branch of `int16_3`: `PL_get_int64` then the
`value < INT16_MIN || value > INT16_MAX` guard; `be16(value)` converts the
`int64_t` to `uint16_t` two's-complement (`% 2 ^ 16` as a Euclidean
remainder). -/
def int16_enc (number : PlNumber) : Option (List Nat) :=
  match getInt64 number with
  | none => none
  | some value =>
    if value < -2 ^ 15 ∨ value > 2 ^ 15 - 1 then none
    else some (leBytes 2 (be16 (value % 2 ^ 16).toNat))

/-- `int16_3(Number, Bytes0, Bytes)`. -/
def int16_3 (number : PlNumber) (cells : List Cell) : Option (Result Int) :=
  match number with
  | .var =>
    match int16_dec cells with
    | none => none
    | some (v, rest) => some (.decoded v rest)
  | _ =>
    match int16_enc number with
    | none => none
    | some out => some (.encoded out)

/-- Decode branch of `int32_3`: `be32` returns `uint32_t`, widened to
`int64_t` without sign extension. -/
def int32_dec (cells : List Cell) : Option (Int × List Cell) :=
  match get_list_bytes 4 cells with
  | none => none
  | some (bs, rest) => some ((be32 (leVal bs) : Nat), rest)

/-- Encode branch of `int32_3`: `PL_get_int64` then the
`value < INT32_MIN || value > INT32_MAX` guard. -/
def int32_enc (number : PlNumber) : Option (List Nat) :=
  match getInt64 number with
  | none => none
  | some value =>
    if value < -2 ^ 31 ∨ value > 2 ^ 31 - 1 then none
    else some (leBytes 4 (be32 (value % 2 ^ 32).toNat))

/-- `int32_3(Number, Bytes0, Bytes)`. -/
def int32_3 (number : PlNumber) (cells : List Cell) : Option (Result Int) :=
  match number with
  | .var =>
    match int32_dec cells with
    | none => none
    | some (v, rest) => some (.decoded v rest)
  | _ =>
    match int32_enc number with
    | none => none
    | some out => some (.encoded out)

/-- Decode branch of `int64_3`: `be64` returns `uint64_t`, which is
reinterpreted two's-complement when passed to `PL_unify_int64`. -/
def int64_dec (cells : List Cell) : Option (Int × List Cell) :=
  match get_list_bytes 8 cells with
  | none => none
  | some (bs, rest) => some (toInt64 (be64 (leVal bs)), rest)

/-- Encode branch of `int64_3`: `PL_get_int64` only; `be64(value)` converts
the `int64_t` to `uint64_t` two's-complement. -/
def int64_enc (number : PlNumber) : Option (List Nat) :=
  match getInt64 number with
  | none => none
  | some value => some (leBytes 8 (be64 (value % 2 ^ 64).toNat))

/-- `int64_3(Number, Bytes0, Bytes)`. -/
def int64_3 (number : PlNumber) (cells : List Cell) : Option (Result Int) :=
  match number with
  | .var =>
    match int64_dec cells with
    | none => none
    | some (v, rest) => some (.decoded v rest)
  | _ =>
    match int64_enc number with
    | none => none
    | some out => some (.encoded out)

/-- Decode branch of `float32_3`: read four bytes, byte-swap, and
reinterpret the `uint32_t` as a `float` (the subsequent `PL_unify_float`
widens that `float` to `double` exactly, which the embedding leaves
implicit). -/
def float32_dec (cells : List Cell) : Option (F32 × List Cell) :=
  match get_list_bytes 4 cells with
  | none => none
  | some (bs, rest) => some (reinterpret_to_float32 (be32 (leVal bs)), rest)

/-- Encode branch of `float32_3`: `PL_get_float` yields a `double` (from a
float term directly, or from an integer term via `intToFloat64`), which
the call `reinterpret_from_float32(value)` implicitly narrows to a single
`float` — `doubleToFloat32` is that host IEEE narrowing conversion, a
parameter of the embedding.  There is no range or representability
check. -/
def float32_enc (doubleToFloat32 : Nat → F32) (intToFloat64 : Int → Nat)
    (number : PlNumber) : Option (List Nat) :=
  match getFloat intToFloat64 number with
  | none => none
  | some bits =>
    some (leBytes 4 (be32 (reinterpret_from_float32 (doubleToFloat32 bits))))

/-- `float32_3(Number, Bytes0, Bytes)`. -/
def float32_3 (doubleToFloat32 : Nat → F32) (intToFloat64 : Int → Nat)
    (number : PlNumber) (cells : List Cell) : Option (Result F32) :=
  match number with
  | .var =>
    match float32_dec cells with
    | none => none
    | some (v, rest) => some (.decoded v rest)
  | _ =>
    match float32_enc doubleToFloat32 intToFloat64 number with
    | none => none
    | some out => some (.encoded out)

/-- Decode branch of `float64_3`. -/
def float64_dec (cells : List Cell) : Option (F64 × List Cell) :=
  match get_list_bytes 8 cells with
  | none => none
  | some (bs, rest) => some (reinterpret_to_float64 (be64 (leVal bs)), rest)

/-- Encode branch of `float64_3`: the Prolog float is already a `double`
(an integer `Number` is converted to one by `PL_get_float`), so no
narrowing occurs. -/
def float64_enc (intToFloat64 : Int → Nat) (number : PlNumber) :
    Option (List Nat) :=
  match getFloat intToFloat64 number with
  | none => none
  | some bits =>
    some (leBytes 8 (be64 (reinterpret_from_float64 ⟨bits⟩)))

/-- `float64_3(Number, Bytes0, Bytes)`. -/
def float64_3 (intToFloat64 : Int → Nat) (number : PlNumber)
    (cells : List Cell) : Option (Result F64) :=
  match number with
  | .var =>
    match float64_dec cells with
    | none => none
    | some (v, rest) => some (.decoded v rest)
  | _ =>
    match float64_enc intToFloat64 number with
    | none => none
    | some out => some (.encoded out)

/-- Composition used to state round-trip properties: encode `number`, feed
the emitted bytes back (as the byte-list cells `unify_list_bytes` would
have produced) to the decode branch, and return the decoded value. -/
def decodeAfterEncode {α : Type} (enc : PlNumber → Option (List Nat))
    (dec : List Cell → Option (α × List Cell)) (number : PlNumber) :
    Option α :=
  (enc number).bind fun out => (dec (bytesToCells out)).map Prod.fst

/-! ## Arithmetic facts about the byte-level primitives -/

/-- Bitwise-or of a left-shifted value with a value that fits entirely
below the shift amount is plain addition (the bit ranges are disjoint). -/
theorem shiftLeft_lor_eq_add (a b k : Nat) (hb : b < 2 ^ k) :
    (a <<< k) ||| b = 2 ^ k * a + b := by
  apply Nat.eq_of_testBit_eq
  intro j
  rw [Nat.testBit_or, Nat.testBit_shiftLeft, Nat.testBit_mul_pow_two_add _ hb]
  by_cases hj : j < k
  · simp [hj, Nat.not_le.mpr hj]
  · have hk : k ≤ j := Nat.le_of_not_lt hj
    have hbj : b.testBit j = false :=
      Nat.testBit_lt_two_pow (lt_of_lt_of_le hb (Nat.pow_le_pow_right (by norm_num) hk))
    simp [hj, hk, hbj]

/-- Arithmetic characterisation of `be16` on in-range inputs: the two bytes
swap places. -/
theorem be16_eq (x : Nat) (h : x < 2 ^ 16) :
    be16 x = x % 2 ^ 8 * 2 ^ 8 + x / 2 ^ 8 := by
  have h8 : x >>> 8 = x / 2 ^ 8 := Nat.shiftRight_eq_div_pow x 8
  have hlt : x / 2 ^ 8 < 2 ^ 8 := by omega
  rw [be16, h8, shiftLeft_lor_eq_add x (x / 2 ^ 8) 8 hlt]
  omega

theorem be16_lt (x : Nat) : be16 x < 2 ^ 16 := Nat.mod_lt _ (by norm_num)

theorem be16_be16 (x : Nat) (h : x < 2 ^ 16) : be16 (be16 x) = x := by
  rw [be16_eq x h, be16_eq _ (by rw [← be16_eq x h]; exact be16_lt x)]
  omega

/-- Arithmetic characterisation of `be32`: the 16-bit halves swap places and
are themselves byte-swapped. -/
theorem be32_eq (x : Nat) :
    be32 x = 2 ^ 16 * be16 (x % 2 ^ 16) + be16 ((x / 2 ^ 16) % 2 ^ 16) := by
  have h16 : x >>> 16 = x / 2 ^ 16 := Nat.shiftRight_eq_div_pow x 16
  rw [be32, h16, shiftLeft_lor_eq_add _ _ 16 (be16_lt _)]
  have h1 : be16 (x % 2 ^ 16) < 2 ^ 16 := be16_lt _
  have h2 : be16 (x / 2 ^ 16 % 2 ^ 16) < 2 ^ 16 := be16_lt _
  omega

theorem be32_lt (x : Nat) : be32 x < 2 ^ 32 := Nat.mod_lt _ (by norm_num)

theorem be32_be32 (x : Nat) (h : x < 2 ^ 32) : be32 (be32 x) = x := by
  rw [be32_eq x, be32_eq]
  have ha : x % 2 ^ 16 < 2 ^ 16 := Nat.mod_lt _ (by norm_num)
  have hb : x / 2 ^ 16 < 2 ^ 16 := by omega
  have h1 : be16 (x % 2 ^ 16) < 2 ^ 16 := be16_lt _
  have h2 : be16 (x / 2 ^ 16 % 2 ^ 16) < 2 ^ 16 := be16_lt _
  have e1 : (2 ^ 16 * be16 (x % 2 ^ 16) + be16 (x / 2 ^ 16 % 2 ^ 16)) % 2 ^ 16
      = be16 (x / 2 ^ 16 % 2 ^ 16) := by omega
  have e2 : (2 ^ 16 * be16 (x % 2 ^ 16) + be16 (x / 2 ^ 16 % 2 ^ 16)) / 2 ^ 16 % 2 ^ 16
      = be16 (x % 2 ^ 16) := by omega
  rw [e1, e2, be16_be16 _ (by omega), be16_be16 _ ha]
  omega

/-- Arithmetic characterisation of `be64`. -/
theorem be64_eq (x : Nat) :
    be64 x = 2 ^ 32 * be32 (x % 2 ^ 32) + be32 ((x / 2 ^ 32) % 2 ^ 32) := by
  have h32 : x >>> 32 = x / 2 ^ 32 := Nat.shiftRight_eq_div_pow x 32
  rw [be64, h32, shiftLeft_lor_eq_add _ _ 32 (be32_lt _)]
  have h1 : be32 (x % 2 ^ 32) < 2 ^ 32 := be32_lt _
  have h2 : be32 (x / 2 ^ 32 % 2 ^ 32) < 2 ^ 32 := be32_lt _
  omega

theorem be64_lt (x : Nat) : be64 x < 2 ^ 64 := Nat.mod_lt _ (by norm_num)

theorem be64_be64 (x : Nat) (h : x < 2 ^ 64) : be64 (be64 x) = x := by
  rw [be64_eq x, be64_eq]
  have ha : x % 2 ^ 32 < 2 ^ 32 := Nat.mod_lt _ (by norm_num)
  have hb : x / 2 ^ 32 < 2 ^ 32 := by omega
  have h1 : be32 (x % 2 ^ 32) < 2 ^ 32 := be32_lt _
  have h2 : be32 (x / 2 ^ 32 % 2 ^ 32) < 2 ^ 32 := be32_lt _
  have e1 : (2 ^ 32 * be32 (x % 2 ^ 32) + be32 (x / 2 ^ 32 % 2 ^ 32)) % 2 ^ 32
      = be32 (x / 2 ^ 32 % 2 ^ 32) := by omega
  have e2 : (2 ^ 32 * be32 (x % 2 ^ 32) + be32 (x / 2 ^ 32 % 2 ^ 32)) / 2 ^ 32 % 2 ^ 32
      = be32 (x % 2 ^ 32) := by omega
  rw [e1, e2, be32_be32 _ (by omega), be32_be32 _ ha]
  omega

/-! ## Facts about byte buffers and the list-walking loop -/

/-- Writing `x` into a union and reading its first `n` bytes back as a
little-endian value truncates `x` to `n` bytes. -/
theorem leVal_leBytes (n x : Nat) : leVal (leBytes n x) = x % 256 ^ n := by
  induction n generalizing x with
  | zero => simp [leBytes, leVal]; omega
  | succ n ih =>
    rw [leBytes, leVal, ih]
    have h : (256 : Nat) ^ (n + 1) = 256 * 256 ^ n := by ring
    rw [h, Nat.mod_mul]

theorem leBytes_length (n x : Nat) : (leBytes n x).length = n := by
  induction n generalizing x with
  | zero => simp [leBytes]
  | succ n ih => simp [leBytes, ih]

theorem leBytes_le (n x : Nat) : ∀ b ∈ leBytes n x, b ≤ 255 := by
  induction n generalizing x with
  | zero => simp [leBytes]
  | succ n ih =>
    intro b hb
    rw [leBytes] at hb
    rcases List.mem_cons.mp hb with h | h
    · omega
    · exact ih _ b h

theorem leVal_lt (bs : List Nat) (h : ∀ b ∈ bs, b ≤ 255) :
    leVal bs < 256 ^ bs.length := by
  induction bs with
  | nil => simp [leVal]
  | cons b bs ih =>
    have hb : b ≤ 255 := h b (List.mem_cons_self ..)
    have ih2 := ih fun x hx => h x (List.mem_cons_of_mem _ hx)
    rw [leVal, List.length_cons]
    have hp : (256 : Nat) ^ (bs.length + 1) = 256 * 256 ^ bs.length := by ring
    omega

/-- The loop body accepts exactly the integer cells in `[0, 255]`. -/
theorem cellByte_int_eq (i : Int) :
    cellByte (Cell.int i) = if 0 ≤ i ∧ i ≤ 255 then some i.toNat else none := by
  simp only [cellByte, cellUint64]
  by_cases h1 : 0 ≤ i ∧ i < 2 ^ 64
  · rw [if_pos h1]
    simp only
    by_cases h2 : i.toNat > 255
    · rw [if_pos h2, if_neg (by omega)]
    · rw [if_neg h2, if_pos (by omega)]
  · rw [if_neg h1, if_neg (by omega)]

/-- A cell is rejected by the loop body exactly when it is not an integer
term with a value in `[0, 255]`. -/
theorem cellByte_eq_none_iff (c : Cell) :
    cellByte c = none ↔ ∀ i : Int, 0 ≤ i → i ≤ 255 → c ≠ .int i := by
  match c with
  | .other => simp [cellByte, cellUint64]
  | .int i =>
    rw [cellByte_int_eq]
    by_cases h : 0 ≤ i ∧ i ≤ 255
    · rw [if_pos h]
      simp only [reduceCtorEq, false_iff, not_forall]
      exact ⟨i, h.1, h.2, by simp⟩
    · rw [if_neg h]
      simp only [true_iff]
      intro j h0 h255 he
      injection he with he
      omega

theorem cellByte_byte (b : Nat) (hb : b ≤ 255) :
    cellByte (Cell.int b) = some b := by
  rw [cellByte_int_eq, if_pos (by omega)]
  simp

/-- `get_list_bytes` fails whenever the list is shorter than the requested
count: `PL_get_list` fails once the list reaches nil. -/
theorem get_list_bytes_short (n : Nat) (cells : List Cell)
    (h : cells.length < n) : get_list_bytes n cells = none := by
  induction n generalizing cells with
  | zero => omega
  | succ n ih =>
    match cells with
    | [] => rfl
    | c :: cells =>
      rw [get_list_bytes]
      match cellByte c with
      | none => rfl
      | some b =>
        simp only
        rw [ih cells (by simpa using h)]

/-- On success, `get_list_bytes n` has read exactly `n` byte values and the
returned tail is the input with its first `n` cells dropped. -/
theorem get_list_bytes_spec (n : Nat) (cells : List Cell) (bs : List Nat)
    (rest : List Cell) (h : get_list_bytes n cells = some (bs, rest)) :
    bs.length = n ∧ (∀ b ∈ bs, b ≤ 255) ∧ rest = cells.drop n := by
  induction n generalizing cells bs rest with
  | zero =>
    rw [get_list_bytes] at h
    simp at h
    simp [h.1, h.2]
  | succ n ih =>
    match cells with
    | [] => exact absurd h (by rw [get_list_bytes]; simp)
    | c :: cells =>
      rw [get_list_bytes] at h
      match hc : cellByte c with
      | none => rw [hc] at h; exact absurd h (by simp)
      | some b =>
        rw [hc] at h
        match hg : get_list_bytes n cells with
        | none => rw [hg] at h; exact absurd h (by simp)
        | some (bs1, rest1) =>
          rw [hg] at h
          simp only [Option.some_inj, Prod.mk.injEq] at h
          obtain ⟨hbs, hrest⟩ := h
          obtain ⟨hlen, hle, hdrop⟩ := ih cells bs1 rest1 hg
          subst hbs hrest
          have hble : b ≤ 255 := by
            match c with
            | .other => simp [cellByte, cellUint64] at hc
            | .int i =>
              rw [cellByte_int_eq] at hc
              by_cases hr : 0 ≤ i ∧ i ≤ 255
              · rw [if_pos hr] at hc
                simp only [Option.some_inj] at hc
                omega
              · rw [if_neg hr] at hc
                simp at hc
          refine ⟨by simp [hlen], ?_, by simp [hdrop]⟩
          intro x hx
          rcases List.mem_cons.mp hx with hh | hh
          · omega
          · exact hle x hh

/-- `get_list_bytes` fails whenever one of the first `n` cells is rejected
by the loop body. -/
theorem get_list_bytes_invalid (n : Nat) (cells : List Cell)
    (h : ∃ c ∈ cells.take n, cellByte c = none) :
    get_list_bytes n cells = none := by
  induction n generalizing cells with
  | zero => simp at h
  | succ n ih =>
    match cells with
    | [] => rfl
    | c :: cells =>
      rw [get_list_bytes]
      simp only [List.take_succ_cons] at h
      rcases h with ⟨c1, hc1, hnone⟩
      rcases List.mem_cons.mp hc1 with hh | hh
      · subst hh; rw [hnone]
      · match hc : cellByte c with
        | none => rfl
        | some b =>
          simp only
          rw [ih cells ⟨c1, hh, hnone⟩]

/-- Reading back a list of in-range byte cells succeeds and returns exactly
those bytes plus the appended tail. -/
theorem get_list_bytes_of_valid (bs : List Nat) (cells : List Cell)
    (h : ∀ b ∈ bs, b ≤ 255) :
    get_list_bytes bs.length (bytesToCells bs ++ cells) = some (bs, cells) := by
  induction bs with
  | nil => rfl
  | cons b bs ih =>
    have hb : b ≤ 255 := h b (List.mem_cons_self ..)
    rw [List.length_cons]
    show get_list_bytes (bs.length + 1) (Cell.int b :: (bytesToCells bs ++ cells)) = _
    rw [get_list_bytes, cellByte_byte b hb]
    simp only
    rw [ih fun x hx => h x (List.mem_cons_of_mem _ hx)]

/-! ## Per-codec computation lemmas -/

/-- `uint16_enc` on an in-range integer emits the two big-endian bytes. -/
theorem uint16_enc_eq (i : Int) (h0 : 0 ≤ i) (h : i < 2 ^ 16) :
    uint16_enc (.int i) = some (leBytes 2 (be16 i.toNat)) := by
  have h1 : 0 ≤ i ∧ i < 2 ^ 64 := ⟨h0, by omega⟩
  simp only [uint16_enc, getUint64, if_pos h1]
  rw [if_neg (by omega), Nat.mod_eq_of_lt (by omega)]

/-- `uint16_dec` on exactly two valid byte cells. -/
theorem uint16_dec_bytes (bs : List Nat) (h2 : bs.length = 2)
    (hle : ∀ b ∈ bs, b ≤ 255) :
    uint16_dec (bytesToCells bs)
      = some (((be16 (leVal bs) : Nat) : Int), ([] : List Cell)) := by
  have hv := get_list_bytes_of_valid bs [] hle
  rw [List.append_nil, h2] at hv
  simp only [uint16_dec, hv]

/-- `uint32_enc` on an in-range integer emits the four big-endian bytes. -/
theorem uint32_enc_eq (i : Int) (h0 : 0 ≤ i) (h : i < 2 ^ 32) :
    uint32_enc (.int i) = some (leBytes 4 (be32 i.toNat)) := by
  have h1 : 0 ≤ i ∧ i < 2 ^ 64 := ⟨h0, by omega⟩
  simp only [uint32_enc, getUint64, if_pos h1]
  rw [if_neg (by omega), Nat.mod_eq_of_lt (by omega)]

/-- `uint64_enc` accepts every unsigned 64-bit integer. -/
theorem uint64_enc_eq (i : Int) (h0 : 0 ≤ i) (h : i < 2 ^ 64) :
    uint64_enc (.int i) = some (leBytes 8 (be64 i.toNat)) := by
  have h1 : 0 ≤ i ∧ i < 2 ^ 64 := ⟨h0, h⟩
  simp only [uint64_enc, getUint64, if_pos h1]

/-- `int16_enc` on an in-range integer emits the two big-endian bytes of
its two's-complement 16-bit pattern. -/
theorem int16_enc_eq (i : Int) (h0 : -2 ^ 15 ≤ i) (h : i < 2 ^ 15) :
    int16_enc (.int i) = some (leBytes 2 (be16 (i % 2 ^ 16).toNat)) := by
  have h1 : -2 ^ 63 ≤ i ∧ i < 2 ^ 63 := ⟨by omega, by omega⟩
  simp only [int16_enc, getInt64, if_pos h1]
  rw [if_neg (by omega)]

/-- `int32_enc` on an in-range integer. -/
theorem int32_enc_eq (i : Int) (h0 : -2 ^ 31 ≤ i) (h : i < 2 ^ 31) :
    int32_enc (.int i) = some (leBytes 4 (be32 (i % 2 ^ 32).toNat)) := by
  have h1 : -2 ^ 63 ≤ i ∧ i < 2 ^ 63 := ⟨by omega, by omega⟩
  simp only [int32_enc, getInt64, if_pos h1]
  rw [if_neg (by omega)]

/-- `int64_enc` accepts every signed 64-bit integer. -/
theorem int64_enc_eq (i : Int) (h0 : -2 ^ 63 ≤ i) (h : i < 2 ^ 63) :
    int64_enc (.int i) = some (leBytes 8 (be64 (i % 2 ^ 64).toNat)) := by
  have h1 : -2 ^ 63 ≤ i ∧ i < 2 ^ 63 := ⟨h0, h⟩
  simp only [int64_enc, getInt64, if_pos h1]

/-- `uint32_dec` on exactly four valid byte cells. -/
theorem uint32_dec_bytes (bs : List Nat) (h4 : bs.length = 4)
    (hle : ∀ b ∈ bs, b ≤ 255) :
    uint32_dec (bytesToCells bs)
      = some (((be32 (leVal bs) : Nat) : Int), ([] : List Cell)) := by
  have hv := get_list_bytes_of_valid bs [] hle
  rw [List.append_nil, h4] at hv
  simp only [uint32_dec, hv]

/-- `uint64_dec` on exactly eight valid byte cells. -/
theorem uint64_dec_bytes (bs : List Nat) (h8 : bs.length = 8)
    (hle : ∀ b ∈ bs, b ≤ 255) :
    uint64_dec (bytesToCells bs)
      = some (((be64 (leVal bs) : Nat) : Int), ([] : List Cell)) := by
  have hv := get_list_bytes_of_valid bs [] hle
  rw [List.append_nil, h8] at hv
  simp only [uint64_dec, hv]

/-- `int16_dec` on exactly two valid byte cells: the decoded value is the
unsigned byte-swapped pattern (no sign extension). -/
theorem int16_dec_bytes (bs : List Nat) (h2 : bs.length = 2)
    (hle : ∀ b ∈ bs, b ≤ 255) :
    int16_dec (bytesToCells bs)
      = some (((be16 (leVal bs) : Nat) : Int), ([] : List Cell)) := by
  have hv := get_list_bytes_of_valid bs [] hle
  rw [List.append_nil, h2] at hv
  simp only [int16_dec, hv]

/-- `int32_dec` on exactly four valid byte cells. -/
theorem int32_dec_bytes (bs : List Nat) (h4 : bs.length = 4)
    (hle : ∀ b ∈ bs, b ≤ 255) :
    int32_dec (bytesToCells bs)
      = some (((be32 (leVal bs) : Nat) : Int), ([] : List Cell)) := by
  have hv := get_list_bytes_of_valid bs [] hle
  rw [List.append_nil, h4] at hv
  simp only [int32_dec, hv]

/-- `int64_dec` on exactly eight valid byte cells: the decoded value is the
two's-complement reading of the byte-swapped pattern. -/
theorem int64_dec_bytes (bs : List Nat) (h8 : bs.length = 8)
    (hle : ∀ b ∈ bs, b ≤ 255) :
    int64_dec (bytesToCells bs)
      = some (toInt64 (be64 (leVal bs)), ([] : List Cell)) := by
  have hv := get_list_bytes_of_valid bs [] hle
  rw [List.append_nil, h8] at hv
  simp only [int64_dec, hv]

/-- Byte-swap, serialise little-endian, read back and byte-swap again:
the identity on 16-bit values. -/
theorem roundtrip16 (u : Nat) (hu : u < 2 ^ 16) :
    be16 (leVal (leBytes 2 (be16 u))) = u := by
  have h256 : (256 : Nat) ^ 2 = 2 ^ 16 := by norm_num
  rw [leVal_leBytes, h256, Nat.mod_eq_of_lt (be16_lt u), be16_be16 u hu]

theorem roundtrip32 (u : Nat) (hu : u < 2 ^ 32) :
    be32 (leVal (leBytes 4 (be32 u))) = u := by
  have h256 : (256 : Nat) ^ 4 = 2 ^ 32 := by norm_num
  rw [leVal_leBytes, h256, Nat.mod_eq_of_lt (be32_lt u), be32_be32 u hu]

theorem roundtrip64 (u : Nat) (hu : u < 2 ^ 64) :
    be64 (leVal (leBytes 8 (be64 u))) = u := by
  have h256 : (256 : Nat) ^ 8 = 2 ^ 64 := by norm_num
  rw [leVal_leBytes, h256, Nat.mod_eq_of_lt (be64_lt u), be64_be64 u hu]

/-- `toInt64` undoes the two's-complement encoding of a signed 64-bit
integer. -/
theorem toInt64_emod (i : Int) (h0 : -2 ^ 63 ≤ i) (h : i < 2 ^ 63) :
    toInt64 (i % 2 ^ 64).toNat = i := by
  unfold toInt64
  by_cases hc : (i % 2 ^ 64).toNat < 2 ^ 63
  · rw [if_pos hc]; omega
  · rw [if_neg hc]; omega

/-- uint16 encode-then-decode round trip. -/
theorem decEnc_uint16 (i : Int) (h0 : 0 ≤ i) (h : i < 2 ^ 16) :
    decodeAfterEncode uint16_enc uint16_dec (.int i) = some i := by
  unfold decodeAfterEncode
  rw [uint16_enc_eq i h0 h, Option.some_bind,
    uint16_dec_bytes (leBytes 2 (be16 i.toNat)) (leBytes_length 2 _) (leBytes_le 2 _),
    Option.map_some', roundtrip16 i.toNat (by omega : i.toNat < 2 ^ 16),
    Int.toNat_of_nonneg h0]

/-- uint32 encode-then-decode round trip. -/
theorem decEnc_uint32 (i : Int) (h0 : 0 ≤ i) (h : i < 2 ^ 32) :
    decodeAfterEncode uint32_enc uint32_dec (.int i) = some i := by
  unfold decodeAfterEncode
  rw [uint32_enc_eq i h0 h, Option.some_bind,
    uint32_dec_bytes (leBytes 4 (be32 i.toNat)) (leBytes_length 4 _) (leBytes_le 4 _),
    Option.map_some', roundtrip32 i.toNat (by omega : i.toNat < 2 ^ 32),
    Int.toNat_of_nonneg h0]

/-- uint64 encode-then-decode round trip. -/
theorem decEnc_uint64 (i : Int) (h0 : 0 ≤ i) (h : i < 2 ^ 64) :
    decodeAfterEncode uint64_enc uint64_dec (.int i) = some i := by
  unfold decodeAfterEncode
  rw [uint64_enc_eq i h0 h, Option.some_bind,
    uint64_dec_bytes (leBytes 8 (be64 i.toNat)) (leBytes_length 8 _) (leBytes_le 8 _),
    Option.map_some', roundtrip64 i.toNat (by omega : i.toNat < 2 ^ 64),
    Int.toNat_of_nonneg h0]

/-- int16 encode-then-decode: the decoded value is the unsigned reading of
the 16-bit two's-complement pattern of the input. -/
theorem decEnc_int16 (i : Int) (h0 : -2 ^ 15 ≤ i) (h : i < 2 ^ 15) :
    decodeAfterEncode int16_enc int16_dec (.int i) = some (i % 2 ^ 16) := by
  have hd := int16_dec_bytes (leBytes 2 (be16 (i % 2 ^ 16).toNat))
    (leBytes_length 2 _) (leBytes_le 2 _)
  have hr := roundtrip16 (i % 2 ^ 16).toNat (by omega : (i % 2 ^ 16).toNat < 2 ^ 16)
  unfold decodeAfterEncode
  rw [int16_enc_eq i h0 h, Option.some_bind, hd, Option.map_some', hr]
  simp only [Option.some_inj]
  omega

/-- int32 encode-then-decode: the decoded value is the unsigned reading of
the 32-bit two's-complement pattern of the input. -/
theorem decEnc_int32 (i : Int) (h0 : -2 ^ 31 ≤ i) (h : i < 2 ^ 31) :
    decodeAfterEncode int32_enc int32_dec (.int i) = some (i % 2 ^ 32) := by
  have hd := int32_dec_bytes (leBytes 4 (be32 (i % 2 ^ 32).toNat))
    (leBytes_length 4 _) (leBytes_le 4 _)
  have hr := roundtrip32 (i % 2 ^ 32).toNat (by omega : (i % 2 ^ 32).toNat < 2 ^ 32)
  unfold decodeAfterEncode
  rw [int32_enc_eq i h0 h, Option.some_bind, hd, Option.map_some', hr]
  simp only [Option.some_inj]
  omega

/-- int64 encode-then-decode round trip (the two's-complement reading at
`PL_unify_int64` undoes the encoding for the full signed range). -/
theorem decEnc_int64 (i : Int) (h0 : -2 ^ 63 ≤ i) (h : i < 2 ^ 63) :
    decodeAfterEncode int64_enc int64_dec (.int i) = some i := by
  have hd := int64_dec_bytes (leBytes 8 (be64 (i % 2 ^ 64).toNat))
    (leBytes_length 8 _) (leBytes_le 8 _)
  have hr := roundtrip64 (i % 2 ^ 64).toNat (by omega : (i % 2 ^ 64).toNat < 2 ^ 64)
  unfold decodeAfterEncode
  rw [int64_enc_eq i h0 h, Option.some_bind, hd, Option.map_some', hr,
    toInt64_emod i h0 h]

/-! ## Claims -/

/-- **C1, counterexample.**  The claim says every representable integer of
the signed widths 16/32/64 round-trips through encode-then-decode.  It
fails at int16 with input `-1`: encode emits `[255, 255]`, but the decode
branch widens the pattern unsigned, returning `65535`, not `-1`. -/
theorem c1_counterexample :
    int16_enc (.int (-1)) = some [255, 255] ∧
    int16_3 .var (bytesToCells [255, 255])
      = some (.decoded 65535 ([] : List Cell)) ∧
    (65535 : Int) ≠ -1 := by
  refine ⟨by decide, by decide, by decide⟩

/-- **C1, amended.**  Encode-then-decode is the identity for the unsigned
codecs over `[0, 2^w-1]`, for the signed codecs over the non-negative half
of their range, and for int64 over its full signed range; for a negative
int16/int32 input `i` the decoded value is `i + 2^w` (the unsigned reading
of its two's-complement pattern), not `i`. -/
theorem c1_roundtrip_amended :
    ∀ i : Int,
      (0 ≤ i → i < 2 ^ 16 →
        decodeAfterEncode uint16_enc uint16_dec (.int i) = some i) ∧
      (0 ≤ i → i < 2 ^ 32 →
        decodeAfterEncode uint32_enc uint32_dec (.int i) = some i) ∧
      (0 ≤ i → i < 2 ^ 64 →
        decodeAfterEncode uint64_enc uint64_dec (.int i) = some i) ∧
      (0 ≤ i → i < 2 ^ 15 →
        decodeAfterEncode int16_enc int16_dec (.int i) = some i) ∧
      (-2 ^ 15 ≤ i → i < 0 →
        decodeAfterEncode int16_enc int16_dec (.int i) = some (i + 2 ^ 16)) ∧
      (0 ≤ i → i < 2 ^ 31 →
        decodeAfterEncode int32_enc int32_dec (.int i) = some i) ∧
      (-2 ^ 31 ≤ i → i < 0 →
        decodeAfterEncode int32_enc int32_dec (.int i) = some (i + 2 ^ 32)) ∧
      (-2 ^ 63 ≤ i → i < 2 ^ 63 →
        decodeAfterEncode int64_enc int64_dec (.int i) = some i) := by
  intro i
  refine ⟨decEnc_uint16 i, decEnc_uint32 i, decEnc_uint64 i, ?_, ?_, ?_, ?_,
    decEnc_int64 i⟩
  · intro h0 h
    rw [decEnc_int16 i (by omega) h]
    simp only [Option.some_inj]
    omega
  · intro h0 h
    rw [decEnc_int16 i h0 (by omega)]
    simp only [Option.some_inj]
    omega
  · intro h0 h
    rw [decEnc_int32 i (by omega) h]
    simp only [Option.some_inj]
    omega
  · intro h0 h
    rw [decEnc_int32 i h0 (by omega)]
    simp only [Option.some_inj]
    omega

/-- Witness for the amended C1 at concrete inputs of every codec. -/
theorem c1_roundtrip_amended_witness :
    decodeAfterEncode uint16_enc uint16_dec (.int 513) = some 513 ∧
    decodeAfterEncode uint32_enc uint32_dec (.int 16909060) = some 16909060 ∧
    decodeAfterEncode uint64_enc uint64_dec (.int 9) = some 9 ∧
    decodeAfterEncode int16_enc int16_dec (.int 513) = some 513 ∧
    decodeAfterEncode int16_enc int16_dec (.int (-2)) = some (-2 + 2 ^ 16) ∧
    decodeAfterEncode int32_enc int32_dec (.int 7) = some 7 ∧
    decodeAfterEncode int32_enc int32_dec (.int (-7)) = some (-7 + 2 ^ 32) ∧
    decodeAfterEncode int64_enc int64_dec (.int (-1)) = some (-1) :=
  ⟨(c1_roundtrip_amended 513).1 (by norm_num) (by norm_num),
   (c1_roundtrip_amended 16909060).2.1 (by norm_num) (by norm_num),
   (c1_roundtrip_amended 9).2.2.1 (by norm_num) (by norm_num),
   (c1_roundtrip_amended 513).2.2.2.1 (by norm_num) (by norm_num),
   (c1_roundtrip_amended (-2)).2.2.2.2.1 (by norm_num) (by norm_num),
   (c1_roundtrip_amended 7).2.2.2.2.2.1 (by norm_num) (by norm_num),
   (c1_roundtrip_amended (-7)).2.2.2.2.2.2.1 (by norm_num) (by norm_num),
   (c1_roundtrip_amended (-1)).2.2.2.2.2.2.2 (by norm_num) (by norm_num)⟩

/-- **C4.**  Encoding the 32-bit unsigned integer `0x01020304` with the
uint32 codec emits exactly `[0x01, 0x02, 0x03, 0x04]`, and decoding that
byte sequence yields `0x01020304` with nothing left over. -/
theorem c4_uint32_example :
    uint32_3 (.int 16909060) [] = some (.encoded [1, 2, 3, 4]) ∧
    uint32_3 .var (bytesToCells [1, 2, 3, 4])
      = some (.decoded 16909060 ([] : List Cell)) := by
  refine ⟨by decide, by decide⟩

/-- **C5.**  Reinterpreting any 32-bit pattern as a `float` and back (and
any 64-bit pattern as a `double` and back) is the identity on bit
patterns: the aliasing is bit-exact, with no numeric conversion, so NaN
and infinity patterns survive unchanged. -/
theorem c5_reinterpret_roundtrip :
    ∀ u : Nat,
      (u < 2 ^ 32 → reinterpret_from_float32 (reinterpret_to_float32 u) = u) ∧
      (u < 2 ^ 64 → reinterpret_from_float64 (reinterpret_to_float64 u) = u) := by
  intro u
  have h4 : (256 : Nat) ^ 4 = 2 ^ 32 := by norm_num
  have h8 : (256 : Nat) ^ 8 = 2 ^ 64 := by norm_num
  constructor
  · intro h
    simp only [reinterpret_to_float32, reinterpret_from_float32, leVal_leBytes, h4]
    omega
  · intro h
    simp only [reinterpret_to_float64, reinterpret_from_float64, leVal_leBytes, h8]
    omega

/-- Witness for C5 at a quiet-NaN single pattern and the positive-infinity
double pattern. -/
theorem c5_reinterpret_roundtrip_witness :
    reinterpret_from_float32 (reinterpret_to_float32 2143289344) = 2143289344 ∧
    reinterpret_from_float64 (reinterpret_to_float64 9218868437227405312)
      = 9218868437227405312 :=
  ⟨(c5_reinterpret_roundtrip 2143289344).1 (by norm_num),
   (c5_reinterpret_roundtrip 9218868437227405312).2 (by norm_num)⟩

/-- **C6.**  Each byte-order conversion is self-inverse on values of its
width (and is a total function with no failure outcome). -/
theorem c6_be_self_inverse :
    ∀ x : Nat,
      (x < 2 ^ 16 → be16 (be16 x) = x) ∧
      (x < 2 ^ 32 → be32 (be32 x) = x) ∧
      (x < 2 ^ 64 → be64 (be64 x) = x) :=
  fun x => ⟨be16_be16 x, be32_be32 x, be64_be64 x⟩

/-- Witness for C6 on concrete values of each width. -/
theorem c6_be_self_inverse_witness :
    be16 (be16 258) = 258 ∧
    be32 (be32 16909060) = 16909060 ∧
    be64 (be64 72623859790382856) = 72623859790382856 :=
  ⟨(c6_be_self_inverse 258).1 (by norm_num),
   (c6_be_self_inverse 16909060).2.1 (by norm_num),
   (c6_be_self_inverse 72623859790382856).2.2 (by norm_num)⟩

/-- `uint16_enc` fails on every out-of-range integer. -/
theorem uint16_enc_none (i : Int) (h : ¬(0 ≤ i ∧ i ≤ 2 ^ 16 - 1)) :
    uint16_enc (.int i) = none := by
  by_cases h1 : 0 ≤ i ∧ i < 2 ^ 64
  · simp only [uint16_enc, getUint64, if_pos h1]
    rw [if_pos (by omega)]
  · simp only [uint16_enc, getUint64, if_neg h1]

/-- `uint32_enc` fails on every out-of-range integer. -/
theorem uint32_enc_none (i : Int) (h : ¬(0 ≤ i ∧ i ≤ 2 ^ 32 - 1)) :
    uint32_enc (.int i) = none := by
  by_cases h1 : 0 ≤ i ∧ i < 2 ^ 64
  · simp only [uint32_enc, getUint64, if_pos h1]
    rw [if_pos (by omega)]
  · simp only [uint32_enc, getUint64, if_neg h1]

/-- `uint64_enc` fails on every out-of-range integer. -/
theorem uint64_enc_none (i : Int) (h : ¬(0 ≤ i ∧ i ≤ 2 ^ 64 - 1)) :
    uint64_enc (.int i) = none := by
  simp only [uint64_enc, getUint64, if_neg (by omega : ¬(0 ≤ i ∧ i < 2 ^ 64))]

/-- `int16_enc` fails on every out-of-range integer. -/
theorem int16_enc_none (i : Int) (h : ¬(-2 ^ 15 ≤ i ∧ i ≤ 2 ^ 15 - 1)) :
    int16_enc (.int i) = none := by
  by_cases h1 : -2 ^ 63 ≤ i ∧ i < 2 ^ 63
  · simp only [int16_enc, getInt64, if_pos h1]
    rw [if_pos (by omega)]
  · simp only [int16_enc, getInt64, if_neg h1]

/-- `int32_enc` fails on every out-of-range integer. -/
theorem int32_enc_none (i : Int) (h : ¬(-2 ^ 31 ≤ i ∧ i ≤ 2 ^ 31 - 1)) :
    int32_enc (.int i) = none := by
  by_cases h1 : -2 ^ 63 ≤ i ∧ i < 2 ^ 63
  · simp only [int32_enc, getInt64, if_pos h1]
    rw [if_pos (by omega)]
  · simp only [int32_enc, getInt64, if_neg h1]

/-- `int64_enc` fails on every out-of-range integer. -/
theorem int64_enc_none (i : Int) (h : ¬(-2 ^ 63 ≤ i ∧ i ≤ 2 ^ 63 - 1)) :
    int64_enc (.int i) = none := by
  simp only [int64_enc, getInt64, if_neg (by omega : ¬(-2 ^ 63 ≤ i ∧ i < 2 ^ 63))]

/-- Success characterisation of `uint16_enc`. -/
theorem uint16_enc_isSome (i : Int) :
    (uint16_enc (.int i)).isSome ↔ 0 ≤ i ∧ i ≤ 2 ^ 16 - 1 := by
  constructor
  · intro hs
    by_contra hn
    rw [uint16_enc_none i hn] at hs
    simp at hs
  · intro hr
    rw [uint16_enc_eq i hr.1 (by omega)]
    rfl

/-- Success characterisation of `uint32_enc`. -/
theorem uint32_enc_isSome (i : Int) :
    (uint32_enc (.int i)).isSome ↔ 0 ≤ i ∧ i ≤ 2 ^ 32 - 1 := by
  constructor
  · intro hs
    by_contra hn
    rw [uint32_enc_none i hn] at hs
    simp at hs
  · intro hr
    rw [uint32_enc_eq i hr.1 (by omega)]
    rfl

/-- Success characterisation of `uint64_enc`. -/
theorem uint64_enc_isSome (i : Int) :
    (uint64_enc (.int i)).isSome ↔ 0 ≤ i ∧ i ≤ 2 ^ 64 - 1 := by
  constructor
  · intro hs
    by_contra hn
    rw [uint64_enc_none i hn] at hs
    simp at hs
  · intro hr
    rw [uint64_enc_eq i hr.1 (by omega)]
    rfl

/-- Success characterisation of `int16_enc`. -/
theorem int16_enc_isSome (i : Int) :
    (int16_enc (.int i)).isSome ↔ -2 ^ 15 ≤ i ∧ i ≤ 2 ^ 15 - 1 := by
  constructor
  · intro hs
    by_contra hn
    rw [int16_enc_none i hn] at hs
    simp at hs
  · intro hr
    rw [int16_enc_eq i hr.1 (by omega)]
    rfl

/-- Success characterisation of `int32_enc`. -/
theorem int32_enc_isSome (i : Int) :
    (int32_enc (.int i)).isSome ↔ -2 ^ 31 ≤ i ∧ i ≤ 2 ^ 31 - 1 := by
  constructor
  · intro hs
    by_contra hn
    rw [int32_enc_none i hn] at hs
    simp at hs
  · intro hr
    rw [int32_enc_eq i hr.1 (by omega)]
    rfl

/-- Success characterisation of `int64_enc`. -/
theorem int64_enc_isSome (i : Int) :
    (int64_enc (.int i)).isSome ↔ -2 ^ 63 ≤ i ∧ i ≤ 2 ^ 63 - 1 := by
  constructor
  · intro hs
    by_contra hn
    rw [int64_enc_none i hn] at hs
    simp at hs
  · intro hr
    rw [int64_enc_eq i hr.1 (by omega)]
    rfl

/-- **C2.**  Each integer encoder succeeds exactly on its declared range —
signed width `w` on `[-2^(w-1), 2^(w-1)-1]`, unsigned width `w` on
`[0, 2^w-1]` — and fails outside it (no silent truncation); in particular
uint16 encode of 65536 fails while 65535 succeeds. -/
theorem c2_encode_range :
    (∀ i : Int,
      ((uint16_enc (.int i)).isSome ↔ 0 ≤ i ∧ i ≤ 2 ^ 16 - 1) ∧
      ((uint32_enc (.int i)).isSome ↔ 0 ≤ i ∧ i ≤ 2 ^ 32 - 1) ∧
      ((uint64_enc (.int i)).isSome ↔ 0 ≤ i ∧ i ≤ 2 ^ 64 - 1) ∧
      ((int16_enc (.int i)).isSome ↔ -2 ^ 15 ≤ i ∧ i ≤ 2 ^ 15 - 1) ∧
      ((int32_enc (.int i)).isSome ↔ -2 ^ 31 ≤ i ∧ i ≤ 2 ^ 31 - 1) ∧
      ((int64_enc (.int i)).isSome ↔ -2 ^ 63 ≤ i ∧ i ≤ 2 ^ 63 - 1)) ∧
    uint16_enc (.int 65536) = none ∧
    (uint16_enc (.int 65535)).isSome :=
  ⟨fun i => ⟨uint16_enc_isSome i, uint32_enc_isSome i, uint64_enc_isSome i,
    int16_enc_isSome i, int32_enc_isSome i, int64_enc_isSome i⟩,
   by decide, by decide⟩

/-! ## Decode-branch failure and inversion lemmas for the dispatchers -/

theorem uint16_3_var_none (cells : List Cell) (h : get_list_bytes 2 cells = none) :
    uint16_3 .var cells = none := by
  simp only [uint16_3, uint16_dec, h]

theorem uint32_3_var_none (cells : List Cell) (h : get_list_bytes 4 cells = none) :
    uint32_3 .var cells = none := by
  simp only [uint32_3, uint32_dec, h]

theorem uint64_3_var_none (cells : List Cell) (h : get_list_bytes 8 cells = none) :
    uint64_3 .var cells = none := by
  simp only [uint64_3, uint64_dec, h]

theorem int16_3_var_none (cells : List Cell) (h : get_list_bytes 2 cells = none) :
    int16_3 .var cells = none := by
  simp only [int16_3, int16_dec, h]

theorem int32_3_var_none (cells : List Cell) (h : get_list_bytes 4 cells = none) :
    int32_3 .var cells = none := by
  simp only [int32_3, int32_dec, h]

theorem int64_3_var_none (cells : List Cell) (h : get_list_bytes 8 cells = none) :
    int64_3 .var cells = none := by
  simp only [int64_3, int64_dec, h]

theorem float32_3_var_none (d2f : Nat → F32) (i2d : Int → Nat)
    (cells : List Cell) (h : get_list_bytes 4 cells = none) :
    float32_3 d2f i2d .var cells = none := by
  simp only [float32_3, float32_dec, h]

theorem float64_3_var_none (i2d : Int → Nat) (cells : List Cell)
    (h : get_list_bytes 8 cells = none) :
    float64_3 i2d .var cells = none := by
  simp only [float64_3, float64_dec, h]

/-- A successful uint16 decode call comes from a successful two-byte read
whose unconsumed tail is the reported rest. -/
theorem uint16_3_var_inv (cells : List Cell) (v : Int) (rest : List Cell)
    (h : uint16_3 .var cells = some (.decoded v rest)) :
    ∃ bs, get_list_bytes 2 cells = some (bs, rest)
      ∧ v = ((be16 (leVal bs) : Nat) : Int) := by
  simp only [uint16_3, uint16_dec] at h
  match hg : get_list_bytes 2 cells with
  | none => rw [hg] at h; simp at h
  | some (bs, r) =>
    rw [hg] at h
    simp only [Option.some_inj, Result.decoded.injEq] at h
    exact ⟨bs, by rw [h.2], h.1.symm⟩

theorem uint32_3_var_inv (cells : List Cell) (v : Int) (rest : List Cell)
    (h : uint32_3 .var cells = some (.decoded v rest)) :
    ∃ bs, get_list_bytes 4 cells = some (bs, rest)
      ∧ v = ((be32 (leVal bs) : Nat) : Int) := by
  simp only [uint32_3, uint32_dec] at h
  match hg : get_list_bytes 4 cells with
  | none => rw [hg] at h; simp at h
  | some (bs, r) =>
    rw [hg] at h
    simp only [Option.some_inj, Result.decoded.injEq] at h
    exact ⟨bs, by rw [h.2], h.1.symm⟩

theorem uint64_3_var_inv (cells : List Cell) (v : Int) (rest : List Cell)
    (h : uint64_3 .var cells = some (.decoded v rest)) :
    ∃ bs, get_list_bytes 8 cells = some (bs, rest)
      ∧ v = ((be64 (leVal bs) : Nat) : Int) := by
  simp only [uint64_3, uint64_dec] at h
  match hg : get_list_bytes 8 cells with
  | none => rw [hg] at h; simp at h
  | some (bs, r) =>
    rw [hg] at h
    simp only [Option.some_inj, Result.decoded.injEq] at h
    exact ⟨bs, by rw [h.2], h.1.symm⟩

/-- A successful int16 decode call: the decoded value is the unsigned
widening of the byte-swapped 16-bit pattern. -/
theorem int16_3_var_inv (cells : List Cell) (v : Int) (rest : List Cell)
    (h : int16_3 .var cells = some (.decoded v rest)) :
    ∃ bs, get_list_bytes 2 cells = some (bs, rest)
      ∧ v = ((be16 (leVal bs) : Nat) : Int) := by
  simp only [int16_3, int16_dec] at h
  match hg : get_list_bytes 2 cells with
  | none => rw [hg] at h; simp at h
  | some (bs, r) =>
    rw [hg] at h
    simp only [Option.some_inj, Result.decoded.injEq] at h
    exact ⟨bs, by rw [h.2], h.1.symm⟩

theorem int32_3_var_inv (cells : List Cell) (v : Int) (rest : List Cell)
    (h : int32_3 .var cells = some (.decoded v rest)) :
    ∃ bs, get_list_bytes 4 cells = some (bs, rest)
      ∧ v = ((be32 (leVal bs) : Nat) : Int) := by
  simp only [int32_3, int32_dec] at h
  match hg : get_list_bytes 4 cells with
  | none => rw [hg] at h; simp at h
  | some (bs, r) =>
    rw [hg] at h
    simp only [Option.some_inj, Result.decoded.injEq] at h
    exact ⟨bs, by rw [h.2], h.1.symm⟩

theorem int64_3_var_inv (cells : List Cell) (v : Int) (rest : List Cell)
    (h : int64_3 .var cells = some (.decoded v rest)) :
    ∃ bs, get_list_bytes 8 cells = some (bs, rest)
      ∧ v = toInt64 (be64 (leVal bs)) := by
  simp only [int64_3, int64_dec] at h
  match hg : get_list_bytes 8 cells with
  | none => rw [hg] at h; simp at h
  | some (bs, r) =>
    rw [hg] at h
    simp only [Option.some_inj, Result.decoded.injEq] at h
    exact ⟨bs, by rw [h.2], h.1.symm⟩

theorem float32_3_var_inv (d2f : Nat → F32) (i2d : Int → Nat)
    (cells : List Cell) (v : F32) (rest : List Cell)
    (h : float32_3 d2f i2d .var cells = some (.decoded v rest)) :
    ∃ bs, get_list_bytes 4 cells = some (bs, rest) := by
  simp only [float32_3, float32_dec] at h
  match hg : get_list_bytes 4 cells with
  | none => rw [hg] at h; simp at h
  | some (bs, r) =>
    rw [hg] at h
    simp only [Option.some_inj, Result.decoded.injEq] at h
    exact ⟨bs, by rw [h.2]⟩

theorem float64_3_var_inv (i2d : Int → Nat) (cells : List Cell) (v : F64)
    (rest : List Cell)
    (h : float64_3 i2d .var cells = some (.decoded v rest)) :
    ∃ bs, get_list_bytes 8 cells = some (bs, rest) := by
  simp only [float64_3, float64_dec] at h
  match hg : get_list_bytes 8 cells with
  | none => rw [hg] at h; simp at h
  | some (bs, r) =>
    rw [hg] at h
    simp only [Option.some_inj, Result.decoded.injEq] at h
    exact ⟨bs, by rw [h.2]⟩

/-- **C3.**  Every fixed-width decode call with declared byte count `N`
fails outright on a list of fewer than `N` cells, and on success has
consumed exactly the first `N` cells, unifying the third argument with the
unconsumed remainder of the input list. -/
theorem c3_exact_count :
    ∀ (d2f : Nat → F32) (i2d : Int → Nat) (cells : List Cell),
      (cells.length < 2 →
        uint16_3 .var cells = none ∧ int16_3 .var cells = none) ∧
      (cells.length < 4 →
        uint32_3 .var cells = none ∧ int32_3 .var cells = none ∧
        float32_3 d2f i2d .var cells = none) ∧
      (cells.length < 8 →
        uint64_3 .var cells = none ∧ int64_3 .var cells = none ∧
        float64_3 i2d .var cells = none) ∧
      (∀ v rest, uint16_3 .var cells = some (.decoded v rest) →
        rest = cells.drop 2) ∧
      (∀ v rest, int16_3 .var cells = some (.decoded v rest) →
        rest = cells.drop 2) ∧
      (∀ v rest, uint32_3 .var cells = some (.decoded v rest) →
        rest = cells.drop 4) ∧
      (∀ v rest, int32_3 .var cells = some (.decoded v rest) →
        rest = cells.drop 4) ∧
      (∀ v rest, float32_3 d2f i2d .var cells = some (.decoded v rest) →
        rest = cells.drop 4) ∧
      (∀ v rest, uint64_3 .var cells = some (.decoded v rest) →
        rest = cells.drop 8) ∧
      (∀ v rest, int64_3 .var cells = some (.decoded v rest) →
        rest = cells.drop 8) ∧
      (∀ v rest, float64_3 i2d .var cells = some (.decoded v rest) →
        rest = cells.drop 8) := by
  intro d2f i2d cells
  refine ⟨fun h => ⟨uint16_3_var_none _ (get_list_bytes_short 2 _ h),
      int16_3_var_none _ (get_list_bytes_short 2 _ h)⟩,
    fun h => ⟨uint32_3_var_none _ (get_list_bytes_short 4 _ h),
      int32_3_var_none _ (get_list_bytes_short 4 _ h),
      float32_3_var_none d2f i2d _ (get_list_bytes_short 4 _ h)⟩,
    fun h => ⟨uint64_3_var_none _ (get_list_bytes_short 8 _ h),
      int64_3_var_none _ (get_list_bytes_short 8 _ h),
      float64_3_var_none i2d _ (get_list_bytes_short 8 _ h)⟩,
    ?_, ?_, ?_, ?_, ?_, ?_, ?_, ?_⟩
  · intro v rest h
    obtain ⟨bs, hg, _⟩ := uint16_3_var_inv cells v rest h
    exact (get_list_bytes_spec 2 cells bs rest hg).2.2
  · intro v rest h
    obtain ⟨bs, hg, _⟩ := int16_3_var_inv cells v rest h
    exact (get_list_bytes_spec 2 cells bs rest hg).2.2
  · intro v rest h
    obtain ⟨bs, hg, _⟩ := uint32_3_var_inv cells v rest h
    exact (get_list_bytes_spec 4 cells bs rest hg).2.2
  · intro v rest h
    obtain ⟨bs, hg, _⟩ := int32_3_var_inv cells v rest h
    exact (get_list_bytes_spec 4 cells bs rest hg).2.2
  · intro v rest h
    obtain ⟨bs, hg⟩ := float32_3_var_inv d2f i2d cells v rest h
    exact (get_list_bytes_spec 4 cells bs rest hg).2.2
  · intro v rest h
    obtain ⟨bs, hg, _⟩ := uint64_3_var_inv cells v rest h
    exact (get_list_bytes_spec 8 cells bs rest hg).2.2
  · intro v rest h
    obtain ⟨bs, hg, _⟩ := int64_3_var_inv cells v rest h
    exact (get_list_bytes_spec 8 cells bs rest hg).2.2
  · intro v rest h
    obtain ⟨bs, hg⟩ := float64_3_var_inv i2d cells v rest h
    exact (get_list_bytes_spec 8 cells bs rest hg).2.2

/-- Witness for C3: short inputs fail for each width, and a successful
decode returns exactly the cells after the consumed prefix. -/
theorem c3_exact_count_witness :
    uint16_3 .var [Cell.int 1] = none ∧
    uint32_3 .var (bytesToCells [1, 2, 3]) = none ∧
    float64_3 (fun _ => 0) .var (bytesToCells [1, 2, 3, 4, 5, 6, 7]) = none ∧
    [Cell.int 1, Cell.int 2, Cell.int 3].drop 2 = [Cell.int 3] :=
  ⟨((c3_exact_count (fun _ => F32.mk 0) (fun _ => 0) [Cell.int 1]).1
     (by decide)).1,
   ((c3_exact_count (fun _ => F32.mk 0) (fun _ => 0)
     (bytesToCells [1, 2, 3])).2.1 (by decide)).1,
   ((c3_exact_count (fun _ => F32.mk 0) (fun _ => 0)
     (bytesToCells [1, 2, 3, 4, 5, 6, 7])).2.2.1 (by decide)).2.2,
   (c3_exact_count (fun _ => F32.mk 0) (fun _ => 0)
     [Cell.int 1, Cell.int 2, Cell.int 3]).2.2.2.1 258 [Cell.int 3]
     (by decide)⟩

/-- **C7.**  A decode call fails whenever one of the cells it must consume
is not an integer in `[0, 255]` — equivalently, whenever the loop body
rejects it; the first conjunct identifies the two formulations. -/
theorem c7_invalid_cell :
    ∀ (d2f : Nat → F32) (i2d : Int → Nat) (cells : List Cell),
      (∀ c : Cell, cellByte c = none ↔ ∀ i : Int, 0 ≤ i → i ≤ 255 → c ≠ .int i) ∧
      ((∃ c ∈ cells.take 2, cellByte c = none) →
        uint16_3 .var cells = none ∧ int16_3 .var cells = none) ∧
      ((∃ c ∈ cells.take 4, cellByte c = none) →
        uint32_3 .var cells = none ∧ int32_3 .var cells = none ∧
        float32_3 d2f i2d .var cells = none) ∧
      ((∃ c ∈ cells.take 8, cellByte c = none) →
        uint64_3 .var cells = none ∧ int64_3 .var cells = none ∧
        float64_3 i2d .var cells = none) := by
  intro d2f i2d cells
  refine ⟨cellByte_eq_none_iff,
    fun h => ⟨uint16_3_var_none _ (get_list_bytes_invalid 2 _ h),
      int16_3_var_none _ (get_list_bytes_invalid 2 _ h)⟩,
    fun h => ⟨uint32_3_var_none _ (get_list_bytes_invalid 4 _ h),
      int32_3_var_none _ (get_list_bytes_invalid 4 _ h),
      float32_3_var_none d2f i2d _ (get_list_bytes_invalid 4 _ h)⟩,
    fun h => ⟨uint64_3_var_none _ (get_list_bytes_invalid 8 _ h),
      int64_3_var_none _ (get_list_bytes_invalid 8 _ h),
      float64_3_var_none i2d _ (get_list_bytes_invalid 8 _ h)⟩⟩

/-- Witness for C7: an out-of-range cell, a negative cell, and a
non-integer cell each make decodes fail. -/
theorem c7_invalid_cell_witness :
    uint16_3 .var [Cell.int 256, Cell.int 0] = none ∧
    uint32_3 .var [Cell.int (-1), Cell.int 0, Cell.int 0, Cell.int 0] = none ∧
    float64_3 (fun _ => 0) .var [Cell.other, Cell.int 0, Cell.int 0,
      Cell.int 0, Cell.int 0, Cell.int 0, Cell.int 0, Cell.int 0] = none :=
  ⟨((c7_invalid_cell (fun _ => F32.mk 0) (fun _ => 0)
      [Cell.int 256, Cell.int 0]).2.1
      ⟨Cell.int 256, by decide, by decide⟩).1,
   ((c7_invalid_cell (fun _ => F32.mk 0) (fun _ => 0)
      [Cell.int (-1), Cell.int 0, Cell.int 0, Cell.int 0]).2.2.1
      ⟨Cell.int (-1), by decide, by decide⟩).1,
   ((c7_invalid_cell (fun _ => F32.mk 0) (fun _ => 0) [Cell.other, Cell.int 0,
      Cell.int 0, Cell.int 0, Cell.int 0, Cell.int 0, Cell.int 0,
      Cell.int 0]).2.2.2
      ⟨Cell.other, by decide, by decide⟩).2.2⟩

/-- **C8.**  The int16 and int32 decode branches widen the big-endian
pattern as an unsigned value, so every decoded result is non-negative and
bounded by `2^w - 1`: no sign extension happens. -/
theorem c8_unsigned_widening :
    ∀ (cells : List Cell) (v : Int) (rest : List Cell),
      (int16_3 .var cells = some (.decoded v rest) →
        0 ≤ v ∧ v ≤ 2 ^ 16 - 1) ∧
      (int32_3 .var cells = some (.decoded v rest) →
        0 ≤ v ∧ v ≤ 2 ^ 32 - 1) := by
  intro cells v rest
  constructor
  · intro h
    obtain ⟨bs, hg, hv⟩ := int16_3_var_inv cells v rest h
    have hlt := be16_lt (leVal bs)
    omega
  · intro h
    obtain ⟨bs, hg, hv⟩ := int32_3_var_inv cells v rest h
    have hlt := be32_lt (leVal bs)
    omega

/-- Witness for C8: decoding `[255, 255]` with int16 yields 65535, which
is indeed in `[0, 2^16-1]`. -/
theorem c8_unsigned_widening_witness :
    (0 : Int) ≤ 65535 ∧ (65535 : Int) ≤ 2 ^ 16 - 1 :=
  (c8_unsigned_widening (bytesToCells [255, 255]) 65535 []).1 (by decide)

/-! ## Dispatch equations: mode depends only on the `Number` argument -/

theorem uint16_3_var_eq (cells : List Cell) :
    uint16_3 .var cells
      = (uint16_dec cells).map fun p => Result.decoded p.1 p.2 := by
  cases h : uint16_dec cells with
  | none => simp [uint16_3, h]
  | some p =>
    cases p with
    | mk v rest => simp [uint16_3, h]

theorem uint16_3_bound_eq (number : PlNumber) (cells : List Cell)
    (h : number ≠ .var) :
    uint16_3 number cells = (uint16_enc number).map Result.encoded := by
  match number with
  | .var => exact absurd rfl h
  | .int i =>
    cases he : uint16_enc (.int i) with
    | none => simp [uint16_3, he]
    | some out => simp [uint16_3, he]
  | .float b =>
    cases he : uint16_enc (.float b) with
    | none => simp [uint16_3, he]
    | some out => simp [uint16_3, he]

theorem uint32_3_var_eq (cells : List Cell) :
    uint32_3 .var cells
      = (uint32_dec cells).map fun p => Result.decoded p.1 p.2 := by
  cases h : uint32_dec cells with
  | none => simp [uint32_3, h]
  | some p =>
    cases p with
    | mk v rest => simp [uint32_3, h]

theorem uint32_3_bound_eq (number : PlNumber) (cells : List Cell)
    (h : number ≠ .var) :
    uint32_3 number cells = (uint32_enc number).map Result.encoded := by
  match number with
  | .var => exact absurd rfl h
  | .int i =>
    cases he : uint32_enc (.int i) with
    | none => simp [uint32_3, he]
    | some out => simp [uint32_3, he]
  | .float b =>
    cases he : uint32_enc (.float b) with
    | none => simp [uint32_3, he]
    | some out => simp [uint32_3, he]

theorem uint64_3_var_eq (cells : List Cell) :
    uint64_3 .var cells
      = (uint64_dec cells).map fun p => Result.decoded p.1 p.2 := by
  cases h : uint64_dec cells with
  | none => simp [uint64_3, h]
  | some p =>
    cases p with
    | mk v rest => simp [uint64_3, h]

theorem uint64_3_bound_eq (number : PlNumber) (cells : List Cell)
    (h : number ≠ .var) :
    uint64_3 number cells = (uint64_enc number).map Result.encoded := by
  match number with
  | .var => exact absurd rfl h
  | .int i =>
    cases he : uint64_enc (.int i) with
    | none => simp [uint64_3, he]
    | some out => simp [uint64_3, he]
  | .float b =>
    cases he : uint64_enc (.float b) with
    | none => simp [uint64_3, he]
    | some out => simp [uint64_3, he]

theorem int16_3_var_eq (cells : List Cell) :
    int16_3 .var cells
      = (int16_dec cells).map fun p => Result.decoded p.1 p.2 := by
  cases h : int16_dec cells with
  | none => simp [int16_3, h]
  | some p =>
    cases p with
    | mk v rest => simp [int16_3, h]

theorem int16_3_bound_eq (number : PlNumber) (cells : List Cell)
    (h : number ≠ .var) :
    int16_3 number cells = (int16_enc number).map Result.encoded := by
  match number with
  | .var => exact absurd rfl h
  | .int i =>
    cases he : int16_enc (.int i) with
    | none => simp [int16_3, he]
    | some out => simp [int16_3, he]
  | .float b =>
    cases he : int16_enc (.float b) with
    | none => simp [int16_3, he]
    | some out => simp [int16_3, he]

theorem int32_3_var_eq (cells : List Cell) :
    int32_3 .var cells
      = (int32_dec cells).map fun p => Result.decoded p.1 p.2 := by
  cases h : int32_dec cells with
  | none => simp [int32_3, h]
  | some p =>
    cases p with
    | mk v rest => simp [int32_3, h]

theorem int32_3_bound_eq (number : PlNumber) (cells : List Cell)
    (h : number ≠ .var) :
    int32_3 number cells = (int32_enc number).map Result.encoded := by
  match number with
  | .var => exact absurd rfl h
  | .int i =>
    cases he : int32_enc (.int i) with
    | none => simp [int32_3, he]
    | some out => simp [int32_3, he]
  | .float b =>
    cases he : int32_enc (.float b) with
    | none => simp [int32_3, he]
    | some out => simp [int32_3, he]

theorem int64_3_var_eq (cells : List Cell) :
    int64_3 .var cells
      = (int64_dec cells).map fun p => Result.decoded p.1 p.2 := by
  cases h : int64_dec cells with
  | none => simp [int64_3, h]
  | some p =>
    cases p with
    | mk v rest => simp [int64_3, h]

theorem int64_3_bound_eq (number : PlNumber) (cells : List Cell)
    (h : number ≠ .var) :
    int64_3 number cells = (int64_enc number).map Result.encoded := by
  match number with
  | .var => exact absurd rfl h
  | .int i =>
    cases he : int64_enc (.int i) with
    | none => simp [int64_3, he]
    | some out => simp [int64_3, he]
  | .float b =>
    cases he : int64_enc (.float b) with
    | none => simp [int64_3, he]
    | some out => simp [int64_3, he]

theorem float32_3_var_eq (d2f : Nat → F32) (i2d : Int → Nat)
    (cells : List Cell) :
    float32_3 d2f i2d .var cells
      = (float32_dec cells).map fun p => Result.decoded p.1 p.2 := by
  cases h : float32_dec cells with
  | none => simp [float32_3, h]
  | some p =>
    cases p with
    | mk v rest => simp [float32_3, h]

theorem float32_3_bound_eq (d2f : Nat → F32) (i2d : Int → Nat)
    (number : PlNumber) (cells : List Cell) (h : number ≠ .var) :
    float32_3 d2f i2d number cells
      = (float32_enc d2f i2d number).map Result.encoded := by
  match number with
  | .var => exact absurd rfl h
  | .int i =>
    cases he : float32_enc d2f i2d (.int i) with
    | none => simp [float32_3, he]
    | some out => simp [float32_3, he]
  | .float b =>
    cases he : float32_enc d2f i2d (.float b) with
    | none => simp [float32_3, he]
    | some out => simp [float32_3, he]

theorem float64_3_var_eq (i2d : Int → Nat) (cells : List Cell) :
    float64_3 i2d .var cells
      = (float64_dec cells).map fun p => Result.decoded p.1 p.2 := by
  cases h : float64_dec cells with
  | none => simp [float64_3, h]
  | some p =>
    cases p with
    | mk v rest => simp [float64_3, h]

theorem float64_3_bound_eq (i2d : Int → Nat) (number : PlNumber)
    (cells : List Cell) (h : number ≠ .var) :
    float64_3 i2d number cells
      = (float64_enc i2d number).map Result.encoded := by
  match number with
  | .var => exact absurd rfl h
  | .int i =>
    cases he : float64_enc i2d (.int i) with
    | none => simp [float64_3, he]
    | some out => simp [float64_3, he]
  | .float b =>
    cases he : float64_enc i2d (.float b) with
    | none => simp [float64_3, he]
    | some out => simp [float64_3, he]

/-- **C9.**  Each of the eight predicates chooses its direction solely from
the instantiation of `Number`: an unbound variable selects the decode
branch (a function of the byte-list argument only), and any bound term
selects the encode branch (a function of `Number` only — the byte-list
argument does not influence the dispatch or the encode result). -/
theorem c9_mode_dispatch :
    ∀ (d2f : Nat → F32) (i2d : Int → Nat) (number : PlNumber)
      (cells : List Cell),
      (uint16_3 .var cells
        = (uint16_dec cells).map fun p => Result.decoded p.1 p.2) ∧
      (uint32_3 .var cells
        = (uint32_dec cells).map fun p => Result.decoded p.1 p.2) ∧
      (uint64_3 .var cells
        = (uint64_dec cells).map fun p => Result.decoded p.1 p.2) ∧
      (int16_3 .var cells
        = (int16_dec cells).map fun p => Result.decoded p.1 p.2) ∧
      (int32_3 .var cells
        = (int32_dec cells).map fun p => Result.decoded p.1 p.2) ∧
      (int64_3 .var cells
        = (int64_dec cells).map fun p => Result.decoded p.1 p.2) ∧
      (float32_3 d2f i2d .var cells
        = (float32_dec cells).map fun p => Result.decoded p.1 p.2) ∧
      (float64_3 i2d .var cells
        = (float64_dec cells).map fun p => Result.decoded p.1 p.2) ∧
      (number ≠ .var →
        uint16_3 number cells = (uint16_enc number).map Result.encoded ∧
        uint32_3 number cells = (uint32_enc number).map Result.encoded ∧
        uint64_3 number cells = (uint64_enc number).map Result.encoded ∧
        int16_3 number cells = (int16_enc number).map Result.encoded ∧
        int32_3 number cells = (int32_enc number).map Result.encoded ∧
        int64_3 number cells = (int64_enc number).map Result.encoded ∧
        float32_3 d2f i2d number cells
          = (float32_enc d2f i2d number).map Result.encoded ∧
        float64_3 i2d number cells
          = (float64_enc i2d number).map Result.encoded) :=
  fun d2f i2d number cells =>
    ⟨uint16_3_var_eq cells, uint32_3_var_eq cells, uint64_3_var_eq cells,
     int16_3_var_eq cells, int32_3_var_eq cells, int64_3_var_eq cells,
     float32_3_var_eq d2f i2d cells, float64_3_var_eq i2d cells,
     fun h => ⟨uint16_3_bound_eq number cells h, uint32_3_bound_eq number cells h,
       uint64_3_bound_eq number cells h, int16_3_bound_eq number cells h,
       int32_3_bound_eq number cells h, int64_3_bound_eq number cells h,
       float32_3_bound_eq d2f i2d number cells h,
       float64_3_bound_eq i2d number cells h⟩⟩

/-- Witness for C9 with a bound integer `Number` on a non-empty byte
list. -/
theorem c9_mode_dispatch_witness :
    uint16_3 (.int 513) [Cell.int 9]
      = (uint16_enc (.int 513)).map Result.encoded ∧
    float64_3 (fun _ => 0) (.float 3) [Cell.int 9]
      = (float64_enc (fun _ => 0) (.float 3)).map Result.encoded :=
  ⟨((c9_mode_dispatch (fun _ => F32.mk 0) (fun _ => 0) (.int 513)
      [Cell.int 9]).2.2.2.2.2.2.2.2 (by decide)).1,
   ((c9_mode_dispatch (fun _ => F32.mk 0) (fun _ => 0) (.float 3)
      [Cell.int 9]).2.2.2.2.2.2.2.2 (by decide)).2.2.2.2.2.2.2⟩

/-- **C10, counterexample.**  The claim says the float32 encode fails
whenever `Number` is not a float; but `PL_get_float` also converts an
integer `Number` to `double`, so encoding the integer term `3` succeeds.
Instantiating the two host conversions at their actual values for the
input `3` (the integer `3` converts to the double `3.0`, bit pattern
`0x4008000000000000`, which narrows to the float `3.0f`, bit pattern
`0x40400000`), the call emits the big-endian bytes of `3.0f` rather than
failing. -/
theorem c10_counterexample :
    float32_enc (fun _ => F32.mk 1077936128) (fun _ => 4613937818241073152)
      (.int 3) = some [64, 64, 0, 0] := by decide

/-- **C10** (amended).  The float32 encode branch never fails on range: it
succeeds on every float `Number` and also on every integer `Number`
(which `PL_get_float` converts to `double` via the host conversion
`intToFloat64`); in both cases the double is silently narrowed to single
precision by the host conversion `doubleToFloat32` with no
representability or range check, and the bits of that narrowed float are
what is emitted.  It fails only when `Number` is not a number. -/
theorem c10_float32_encode_numbers :
    ∀ (doubleToFloat32 : Nat → F32) (intToFloat64 : Int → Nat)
      (number : PlNumber),
      ((float32_enc doubleToFloat32 intToFloat64 number).isSome
        ↔ (∃ bits, number = .float bits) ∨ (∃ i, number = .int i)) ∧
      (∀ bits, float32_enc doubleToFloat32 intToFloat64 (.float bits)
        = some (leBytes 4 (be32 (reinterpret_from_float32
            (doubleToFloat32 bits))))) ∧
      (∀ i, float32_enc doubleToFloat32 intToFloat64 (.int i)
        = some (leBytes 4 (be32 (reinterpret_from_float32
            (doubleToFloat32 (intToFloat64 i)))))) := by
  intro d2f i2d number
  refine ⟨?_, fun bits => rfl, fun i => rfl⟩
  match number with
  | .var => simp [float32_enc, getFloat]
  | .int i => simp [float32_enc, getFloat]
  | .float b => simp [float32_enc, getFloat]
